import Mathlib

/-!
# wsrep_utils.h: status tracking, environment array, process pipes, schema version

A shallow embedding of the classes declared in `sql/wsrep_utils.h` (namespace `wsp`)
and the properties stated about them.

* `wsp.node_status` is defined inline in the header and is embedded statement by
  statement.  The enumeration `wsrep_member_status_t`, the view type
  `wsrep_view_info_t` and the value `WSREP_MEMBER_UNDEFINED` come from the provider
  API header, so they are parameters of the development.
* `wsp.WSREPState.clear`, `wsp.process.pipe` and `wsp.process.write_pipe` are defined
  inline in the header; the other members of `env`, `process` and `WSREPState` are
  only declared there and are modelled from the specification.
-/

namespace wsp

/-! ## node_status -/

section NodeStatus

variable {Status : Type} [DecidableEq Status] {View : Type}

/-- One invocation of the upcall `wsrep_notify_status(new_status, view)`: the two
arguments it was called with, and the value `local_status.get()` had while the
upcall was running. -/
structure notify_call (Status : Type) (View : Type) where
  new_status : Status
  view : Option View
  status_during_call : Status
deriving DecidableEq, Repr

/-- The class `node_status`: its only data member is `status`. -/
structure node_status (Status : Type) where
  status : Status
deriving DecidableEq, Repr

/-- The state a member function of `node_status` runs in: the object itself and the
upcalls made so far, oldest first. -/
structure machine (Status : Type) (View : Type) where
  self : node_status Status
  upcalls : List (notify_call Status View)
deriving DecidableEq, Repr

/-- The constructor `node_status() : status(WSREP_MEMBER_UNDEFINED) {}`. -/
def node_status.ctor (WSREP_MEMBER_UNDEFINED : Status) : node_status Status :=
  { status := WSREP_MEMBER_UNDEFINED }

/-- The const member `get() const { return status; }`: the returned value together
with the object after the call. -/
def node_status.get (self : node_status Status) : Status × node_status Status :=
  (self.status, self)

/-- The statement `wsrep_notify_status(new_status, view);`: the upcall runs in the
current state and is appended to the record of upcalls. -/
def wsrep_notify_status (new_status : Status) (view : Option View)
    (m : machine Status View) : machine Status View :=
  { m with upcalls := m.upcalls ++
      [{ new_status := new_status, view := view, status_during_call := m.self.get.1 }] }

/-- The statement `status = new_status;`. -/
def assign_status (new_status : Status) (m : machine Status View) : machine Status View :=
  { m with self := { status := new_status } }

/-- The member `set(new_status, view)`:
`if (status != new_status || 0 != view) { wsrep_notify_status(new_status, view);
status = new_status; }`.  A null `view` is `none`, so `0 != view` is `view.isSome`. -/
def node_status.set (new_status : Status) (view : Option View)
    (m : machine Status View) : machine Status View :=
  if m.self.status ≠ new_status ∨ view.isSome then
    assign_status new_status (wsrep_notify_status new_status view m)
  else
    m

/-- A machine holding a freshly constructed `node_status` and no upcalls yet. -/
def machine.fresh (WSREP_MEMBER_UNDEFINED : Status) : machine Status View :=
  { self := node_status.ctor WSREP_MEMBER_UNDEFINED, upcalls := [] }

/-- A finite sequence of calls `set(new_status)` with the default null view, in order. -/
def set_all (statuses : List Status) (m : machine Status View) : machine Status View :=
  statuses.foldl (fun acc new_status => node_status.set new_status none acc) m

/-- The specification's reading of the notifications of a run: the input sequence with
every element equal to its predecessor removed, `prev` being the predecessor of the
first element. -/
def drop_unchanged (prev : Status) : List Status → List Status
  | [] => []
  | x :: xs => if x = prev then drop_unchanged x xs else x :: drop_unchanged x xs

/-- The number of status changes in a sequence: positions whose element differs from
its predecessor, `prev` being the predecessor of the first element. -/
def count_changes (prev : Status) : List Status → Nat
  | [] => 0
  | x :: xs => (if x = prev then 0 else 1) + count_changes x xs

end NodeStatus

/-! ## env -/

/-- The class `env`: `len_` entries, the array `env_` (a null array is `none`, a null
slot of the array is `none`) and the sticky error code `errno_`. -/
structure env where
  len_ : Nat
  env_ : Option (List (Option String))
  errno_ : Int
deriving DecidableEq, Repr

/-- Modelled from the spec: the constructor `env::env(char **env)` is only declared in
the header.  It deep-copies every entry of the existing array, which may be absent,
into a null-terminated array; if copying cannot complete it fails with an allocation
error and no half-built array is exposed.  `alloc_errno` is the error code the
allocator left, `0` when every allocation succeeded. -/
def env.ctor (e : Option (List String)) (alloc_errno : Int) : env :=
  if alloc_errno = 0 then
    { len_ := (e.getD []).length, env_ := some ((e.getD []).map some ++ [none]), errno_ := 0 }
  else
    { len_ := 0, env_ := none, errno_ := alloc_errno }

/-- Modelled from the spec: `env::append(const char *var)` is only declared in the
header.  It appends one entry, reallocating the backing array and re-terminating it
with null, and returns a status; on allocation failure it leaves the prior contents
intact and records the error.  `alloc_errno` is the error code the allocator left,
`0` when the allocation succeeded. -/
def env.append (self : env) (var : String) (alloc_errno : Int) : Int × env :=
  if alloc_errno = 0 then
    (0, { self with
            len_ := self.len_ + 1,
            env_ := some ((self.env_.getD []).take self.len_ ++ [some var, none]) })
  else
    (alloc_errno, { self with errno_ := alloc_errno })

/-- The member `int error() const { return errno_; }`. -/
def env.error (self : env) : Int := self.errno_

/-- The member `char **operator()() { return env_; }`, the materialized array. -/
def env.materialize (self : env) : Option (List (Option String)) := self.env_

/-! ## process -/

/-- The I/O direction of a supervisor, one of read-only, write-only and read-write. -/
inductive io_direction where
  | r
  | w
  | rw
deriving DecidableEq, Repr

/-- The token of an I/O direction at the process spawn boundary. -/
def io_direction.token : io_direction → String
  | io_direction.r => "r"
  | io_direction.w => "w"
  | io_direction.rw => "rw"

/-- The class `process`: the command `str_`, the stream handles `io_` and `io_w_`
(a null `FILE *` is `none`, an open stream is identified by a number), the sticky
error code `err_` and the child's process identifier `pid_`. -/
structure process where
  str_ : String
  io_ : Option Nat
  io_w_ : Option Nat
  err_ : Int
  pid_ : Int
deriving DecidableEq, Repr

/-- What the operating system answers to a spawn request: `os_errno` is `0` when the
pipes were created and the child was started, and then `pid` is the child, `read_end`
the parent's stream reading the child's output and `write_end` the parent's stream
writing the child's input. -/
structure spawn_outcome where
  os_errno : Int
  pid : Int
  read_end : Nat
  write_end : Nat
deriving DecidableEq, Repr

/-- Modelled from the spec: `process::execute(const char *type, char **env)` is only
declared in the header.  It creates the requested pipe(s), starts the child bound to
the requested pipe ends and records the child's process identifier; a handle is null
if the requested direction did not request it, the write-only handle is exposed
through the same accessor as the read handle, and the secondary write handle is
populated only in read-write mode.  On failure it sets the sticky error code and
leaves no process running and no open descriptor. -/
def process.execute (self : process) (type : io_direction)
    (_env : Option (List (Option String))) (os : spawn_outcome) : process :=
  if os.os_errno = 0 then
    match type with
    | io_direction.r =>
      { self with io_ := some os.read_end, io_w_ := none, err_ := 0, pid_ := os.pid }
    | io_direction.w =>
      { self with io_ := some os.write_end, io_w_ := none, err_ := 0, pid_ := os.pid }
    | io_direction.rw =>
      { self with io_ := some os.read_end, io_w_ := some os.write_end, err_ := 0,
                  pid_ := os.pid }
  else
    { self with io_ := none, io_w_ := none, err_ := os.os_errno, pid_ := 0 }

/-- Modelled from the spec: the constructor `process::process(cmd, type, env,
execute_immediately)` is only declared in the header.  If `execute_immediately` is
true the spawn happens inside construction, otherwise the instance is created inert,
with no handle and no child. -/
def process.ctor (cmd : String) (type : io_direction) (env : Option (List (Option String)))
    (execute_immediately : Bool) (os : spawn_outcome) : process :=
  let inert : process := { str_ := cmd, io_ := none, io_w_ := none, err_ := 0, pid_ := 0 }
  if execute_immediately then inert.execute type env os else inert

/-- The member `FILE *pipe() { return io_; }`. -/
def process.pipe (self : process) : Option Nat := self.io_

/-- The member `FILE* write_pipe() { return io_w_; }`. -/
def process.write_pipe (self : process) : Option Nat := self.io_w_

/-- The member `int error() { return err_; }`. -/
def process.error (self : process) : Int := self.err_

/-! ## WSREPState -/

/-- The class `WSREPState`: its only data member is the string `wsrep_schema_version`,
held as its sequence of characters. -/
structure WSREPState where
  wsrep_schema_version : List Char
deriving DecidableEq, Repr

/-- The member `void clear() { wsrep_schema_version.clear(); }`. -/
def WSREPState.clear (_self : WSREPState) : WSREPState :=
  { wsrep_schema_version := [] }

/-- The number of values of the type `uint` of the components in the header,
an `unsigned int` of 32 bits: `2 ^ 32`. -/
def UINT_RANGE : Nat := 4294967296

/-- The value of a run of decimal digits, most significant first. -/
def digits_value (ds : List Char) : Nat :=
  ds.foldl (fun acc c => 10 * acc + (c.toNat - '0'.toNat)) 0

/-- A component is numeric when it is a non-empty run of decimal digits; every other
component is non-numeric or malformed. -/
def is_numeric (piece : List Char) : Bool :=
  !piece.isEmpty && piece.all Char.isDigit

/-- The `uint` a component of a version string stands for: the value of a numeric
component, reduced to the 32 bits of `uint`, and `0` for a non-numeric or malformed
component. -/
def component_value (piece : List Char) : Nat :=
  if is_numeric piece then digits_value piece % UINT_RANGE else 0

/-- The version string without its trailing qualifier, the suffix that starts at the
first `-`: `8.0.15-5` is truncated to `8.0.15`. -/
def strip_qualifier (str : List Char) : List Char :=
  str.takeWhile (fun c => c != '-')

/-- The components of a version string: the pieces between the `.` of the string
without its trailing qualifier. -/
def version_pieces (str : List Char) : List (List Char) :=
  (strip_qualifier str).splitOn '.'

/-- Modelled from the spec: `WSREPState::parse_version(str, major, minor, revision)` is
only declared in the header.  An extra trailing qualifier is truncated (the header:
`8.0.15-5` would be shortened to `8.0.15`); the string is split on `.`; a missing
trailing component is `0`; a non-numeric or malformed component is `0` rather than a
parse failure.  The result is the triple `(major, minor, revision)` of `uint`. -/
def WSREPState.parse_version (str : List Char) : Nat × Nat × Nat :=
  let pieces := version_pieces str
  (component_value (pieces.getD 0 []), component_value (pieces.getD 1 []),
   component_value (pieces.getD 2 []))

/-- The text `major.minor.revision` of three components, each in decimal. -/
def format_version (v : Nat × Nat × Nat) : List Char :=
  Nat.toDigits 10 v.1 ++ '.' :: (Nat.toDigits 10 v.2.1 ++ '.' :: Nat.toDigits 10 v.2.2)

/-- The three-component form `major.minor.revision` of a version string: extra
trailing qualifiers are truncated and missing components are zero-padded. -/
def normalize_version (str : List Char) : List Char :=
  format_version (WSREPState.parse_version str)

/-- Modelled from the spec: `WSREPState::wsrep_schema_version_equals(server_version)`
is only declared in the header.  It normalizes `server_version` by the same
major.minor.revision rule, compares component-wise to the stored version and returns
true only when all three components are equal. -/
def WSREPState.wsrep_schema_version_equals (self : WSREPState)
    (server_version : List Char) : Bool :=
  let mine := WSREPState.parse_version self.wsrep_schema_version
  let theirs := WSREPState.parse_version server_version
  mine.1 == theirs.1 && mine.2.1 == theirs.2.1 && mine.2.2 == theirs.2.2

/-- The version files: the content that can be read at a directory and file name
(`none` when the file is absent or unreadable) and whether a write there completes. -/
structure version_files where
  content : List Char → List Char → Option (List Char)
  writable : List Char → List Char → Bool

/-- Modelled from the spec: the content of a version file is a version string of the
form `major.minor.revision`, which on load may still lack trailing components or carry
a trailing qualifier.  A content is a well-formed version string when each of the
components read from it, at most three, is numeric. -/
def well_formed_version (text : List Char) : Bool :=
  ((version_pieces text).take 3).all is_numeric

/-- Modelled from the spec: `WSREPState::save_to(dir, filename)` is only declared in
the header.  Before saving the stored string is brought to the form `x.y.z`; the
normalized string is written to the named file, overwriting any prior content; on an
I/O failure the result is false and the file keeps its prior state. -/
def WSREPState.save_to (self : WSREPState) (dir filename : List Char)
    (fs : version_files) : Bool × WSREPState × version_files :=
  let normalized : WSREPState :=
    { wsrep_schema_version := normalize_version self.wsrep_schema_version }
  if fs.writable dir filename then
    (true, normalized,
      { fs with content := fun d f =>
          if d = dir ∧ f = filename then some normalized.wsrep_schema_version
          else fs.content d f })
  else
    (false, normalized, fs)

/-- Modelled from the spec: `WSREPState::load_from(dir, filename)` is only declared in
the header.  It reads the named file and on success parses and normalizes the version
string in place; it returns false and leaves the stored string untouched if the file
is absent, unreadable, or its content is not a well-formed version string. -/
def WSREPState.load_from (self : WSREPState) (dir filename : List Char)
    (fs : version_files) : Bool × WSREPState :=
  match fs.content dir filename with
  | none => (false, self)
  | some text =>
    if well_formed_version text then
      (true, { wsrep_schema_version := normalize_version text })
    else (false, self)

end wsp

namespace wsp

/-! ## Properties of node_status -/

section NodeStatusProofs

variable {Status : Type} [DecidableEq Status] {View : Type}

theorem set_eq_of_notify (m : machine Status View) (n : Status) (v : Option View)
    (h : m.self.status ≠ n ∨ v.isSome) :
    node_status.set n v m = assign_status n (wsrep_notify_status n v m) := by
  unfold node_status.set
  rw [if_pos h]

theorem set_eq_of_quiet (m : machine Status View) (n : Status) (v : Option View)
    (h : ¬ (m.self.status ≠ n ∨ v.isSome)) :
    node_status.set n v m = m := by
  unfold node_status.set
  rw [if_neg h]

theorem set_status (m : machine Status View) (n : Status) (v : Option View) :
    (node_status.set n v m).self.status = n := by
  by_cases h : m.self.status ≠ n ∨ v.isSome
  · rw [set_eq_of_notify m n v h]
    rfl
  · rw [set_eq_of_quiet m n v h]
    by_contra hne
    exact h (Or.inl hne)

theorem set_upcalls (m : machine Status View) (n : Status) (v : Option View) :
    (node_status.set n v m).upcalls =
      m.upcalls ++ (if m.self.status ≠ n ∨ v.isSome then
        [{ new_status := n, view := v, status_during_call := m.self.status }] else []) := by
  by_cases h : m.self.status ≠ n ∨ v.isSome
  · rw [set_eq_of_notify m n v h, if_pos h]
    rfl
  · rw [set_eq_of_quiet m n v h, if_neg h, List.append_nil]

theorem set_all_cons (x : Status) (xs : List Status) (m : machine Status View) :
    set_all (x :: xs) m = set_all xs (node_status.set x none m) := rfl

theorem set_all_statuses (xs : List Status) (m : machine Status View) :
    (set_all xs m).upcalls.map (fun c => c.new_status) =
      m.upcalls.map (fun c => c.new_status) ++ drop_unchanged m.self.status xs := by
  induction xs generalizing m with
  | nil => simp [set_all, drop_unchanged]
  | cons x xs ih =>
    rw [set_all_cons, ih, set_status, set_upcalls]
    by_cases hx : x = m.self.status
    · have hq : ¬ (m.self.status ≠ x ∨ (none : Option View).isSome) := by
        simp [hx]
      rw [if_neg hq]
      simp [drop_unchanged, hx]
    · have hn : m.self.status ≠ x ∨ (none : Option View).isSome :=
        Or.inl (fun h => hx h.symm)
      rw [if_pos hn]
      simp [drop_unchanged, hx]

theorem drop_unchanged_chain (prev : Status) (xs : List Status) :
    List.Chain (fun a b => a ≠ b) prev (drop_unchanged prev xs) := by
  induction xs generalizing prev with
  | nil => exact List.Chain.nil
  | cons x xs ih =>
    unfold drop_unchanged
    by_cases hx : x = prev
    · rw [if_pos hx]
      subst hx
      exact ih x
    · rw [if_neg hx]
      exact List.Chain.cons (fun h => hx h.symm) (ih x)

theorem drop_unchanged_length (prev : Status) (xs : List Status) :
    (drop_unchanged prev xs).length = count_changes prev xs := by
  induction xs generalizing prev with
  | nil => rfl
  | cons x xs ih =>
    unfold drop_unchanged count_changes
    by_cases hx : x = prev
    · rw [if_pos hx, if_pos hx, ih, Nat.zero_add]
    · rw [if_neg hx, if_neg hx, List.length_cons, ih, Nat.add_comm]

/-- C1: `set(n, v)` on a status `s` invokes `wsrep_notify_status` exactly once, with the
arguments `(n, v)`, when `n` differs from `s` or `v` is non-null, and does not invoke
it at all when `n` equals `s` and `v` is null: the upcalls recorded after the call are
those recorded before it followed by that single call, or by nothing. -/
theorem set_notifies_once_iff_changed_or_view (m : machine Status View) (n : Status)
    (v : Option View) :
    (node_status.set n v m).upcalls.map (fun c => (c.new_status, c.view)) =
      m.upcalls.map (fun c => (c.new_status, c.view)) ++
        (if m.self.status ≠ n ∨ v.isSome then [(n, v)] else []) := by
  rw [set_upcalls]
  by_cases h : m.self.status ≠ n ∨ v.isSome
  · rw [if_pos h, if_pos h, List.map_append]
    rfl
  · rw [if_neg h, if_neg h, List.append_nil, List.append_nil]

/-- C8: after `set(n, v)` returns, `get()` returns `n`, whatever the prior status and
the view; a freshly constructed `node_status` returns `WSREP_MEMBER_UNDEFINED` from
`get()`; and `get()` leaves the object as it was. -/
theorem get_after_set_and_fresh (m : machine Status View) (n : Status) (v : Option View)
    (WSREP_MEMBER_UNDEFINED : Status) (self : node_status Status) :
    (node_status.set n v m).self.get.1 = n ∧
      (node_status.ctor WSREP_MEMBER_UNDEFINED).get.1 = WSREP_MEMBER_UNDEFINED ∧
      self.get.2 = self :=
  ⟨set_status m n v, rfl, rfl⟩

/-- C9: for a sequence of `set` calls with a null view on a freshly constructed
`node_status`, the statuses delivered to `wsrep_notify_status` are the input sequence
with every element equal to its predecessor removed (the first predecessor being
`WSREP_MEMBER_UNDEFINED`); no two consecutive notifications carry the same status,
and there are as many notifications as status changes. -/
theorem notifications_are_status_changes (WSREP_MEMBER_UNDEFINED : Status)
    (xs : List Status) :
    ((set_all xs (machine.fresh WSREP_MEMBER_UNDEFINED :
        machine Status View)).upcalls.map (fun c => c.new_status) =
        drop_unchanged WSREP_MEMBER_UNDEFINED xs) ∧
      List.Chain (fun a b => a ≠ b) WSREP_MEMBER_UNDEFINED
        ((set_all xs (machine.fresh WSREP_MEMBER_UNDEFINED :
          machine Status View)).upcalls.map (fun c => c.new_status)) ∧
      (set_all xs (machine.fresh WSREP_MEMBER_UNDEFINED :
        machine Status View)).upcalls.length = count_changes WSREP_MEMBER_UNDEFINED xs := by
  have key : (set_all xs (machine.fresh WSREP_MEMBER_UNDEFINED :
        machine Status View)).upcalls.map (fun c => c.new_status) =
        drop_unchanged WSREP_MEMBER_UNDEFINED xs := by
    rw [set_all_statuses]
    rfl
  refine ⟨key, ?_, ?_⟩
  · rw [key]
    exact drop_unchanged_chain _ _
  · rw [← drop_unchanged_length, ← key, List.length_map]

/-- C10: when `set(n, v)` makes the upcall, it makes it before the stored status is
overwritten: the call is the upcall statement followed by the assignment, while
`wsrep_notify_status(n, v)` runs `get()` still returns the previous status, and
`get()` returns `n` once `set` has returned. -/
theorem upcall_precedes_status_store (m : machine Status View) (n : Status)
    (v : Option View) (h : m.self.status ≠ n ∨ v ≠ none) :
    node_status.set n v m = assign_status n (wsrep_notify_status n v m) ∧
      (wsrep_notify_status n v m).self.get.1 = m.self.status ∧
      (node_status.set n v m).upcalls = m.upcalls ++
        [{ new_status := n, view := v, status_during_call := m.self.status }] ∧
      (node_status.set n v m).self.get.1 = n := by
  have h' : m.self.status ≠ n ∨ v.isSome := by
    rcases h with h | h
    · exact Or.inl h
    · exact Or.inr (Option.isSome_iff_ne_none.mpr h)
  refine ⟨set_eq_of_notify m n v h', rfl, ?_, set_status m n v⟩
  rw [set_upcalls, if_pos h']

/-- Witness for C10: status `0`, a call `set(1)` with a null view. -/
theorem upcall_precedes_status_store_witness :
    ((0 : Nat) ≠ 1 ∨ (none : Option Unit) ≠ none) ∧
      (node_status.set 1 none ({ self := { status := 0 }, upcalls := [] } :
          machine Nat Unit)).upcalls =
        [{ new_status := 1, view := none, status_during_call := 0 }] :=
  ⟨Or.inl (by decide),
   (upcall_precedes_status_store ({ self := { status := 0 }, upcalls := [] } :
      machine Nat Unit) 1 none (Or.inl (by decide))).2.2.1⟩

end NodeStatusProofs

/-! ## Properties of env and process -/

/-- C6: for every environment array `E` (possibly empty or absent) and every entry
`V`, a builder successfully constructed from `E` on which `append(V)` succeeds
materializes an array of exactly `|E| + 1` entries followed by the null terminator:
the entries of `E` in their original order, then `V`. -/
theorem append_materializes_env_then_var (E : Option (List String)) (V : String)
    (ctor_errno append_errno : Int)
    (hctor : (env.ctor E ctor_errno).error = 0)
    (happend : ((env.ctor E ctor_errno).append V append_errno).1 = 0) :
    ((env.ctor E ctor_errno).append V append_errno).2.materialize =
        some ((E.getD []).map some ++ [some V, none]) ∧
      ((env.ctor E ctor_errno).append V append_errno).2.len_ = (E.getD []).length + 1 ∧
      ((env.ctor E ctor_errno).append V append_errno).2.error = 0 := by
  have h1 : ctor_errno = 0 := by
    by_contra hne
    simp [env.ctor, env.error, hne] at hctor
  have h2 : append_errno = 0 := by
    by_contra hne
    simp [env.append, hne] at happend
  subst h1 h2
  simp [env.ctor, env.append, env.materialize, env.error]

/-- Witness for C6: the environment `["A=1", "B=2"]` and the entry `"C=3"`. -/
theorem append_materializes_env_then_var_witness :
    ((env.ctor (some ["A=1", "B=2"]) 0).append "C=3" 0).2.materialize =
      some [some "A=1", some "B=2", some "C=3", none] :=
  (append_materializes_env_then_var (some ["A=1", "B=2"]) "C=3" 0 0 rfl rfl).1

/-- C7: for a supervisor executed successfully with I/O direction `type`,
`write_pipe()` is non-null exactly when `type` is `rw`, and `pipe()` is the read
handle when `type` is `r` or `rw` and the write handle when `type` is `w`. -/
theorem pipes_follow_direction (self : process) (type : io_direction)
    (e : Option (List (Option String))) (os : spawn_outcome)
    (hok : (self.execute type e os).error = 0) :
    ((self.execute type e os).write_pipe ≠ none ↔ type.token = "rw") ∧
      (self.execute type e os).write_pipe =
        (if type = io_direction.rw then some os.write_end else none) ∧
      (self.execute type e os).pipe =
        (if type = io_direction.w then some os.write_end else some os.read_end) := by
  have h0 : os.os_errno = 0 := by
    by_contra hne
    simp [process.execute, process.error, hne] at hok
  cases type <;>
    simp [process.execute, process.write_pipe, process.pipe, io_direction.token, h0]

/-- Witness for C7: the command `cat` constructed in read-write mode and executed
immediately, the system handing out streams `3` and `4`. -/
theorem pipes_follow_direction_witness :
    (process.ctor "cat" io_direction.rw none true
        { os_errno := 0, pid := 1234, read_end := 3, write_end := 4 }).error = 0 ∧
      (process.ctor "cat" io_direction.rw none true
        { os_errno := 0, pid := 1234, read_end := 3, write_end := 4 }).pipe = some 3 :=
  ⟨rfl,
   (pipes_follow_direction
      { str_ := "cat", io_ := none, io_w_ := none, err_ := 0, pid_ := 0 }
      io_direction.rw none
      { os_errno := 0, pid := 1234, read_end := 3, write_end := 4 } rfl).2.2⟩

/-! ## Properties of WSREPState -/

theorem digitChar_isDigit (k : Nat) (hk : k < 10) : (Nat.digitChar k).isDigit = true := by
  interval_cases k <;> decide

theorem digitChar_value (k : Nat) (hk : k < 10) :
    (Nat.digitChar k).toNat - '0'.toNat = k := by
  interval_cases k <;> decide

theorem digits_value_snoc (ds : List Char) (c : Char) :
    digits_value (ds ++ [c]) = 10 * digits_value ds + (c.toNat - '0'.toNat) := by
  simp [digits_value, List.foldl_append]

theorem toDigitsCore_acc (fuel n : Nat) (ds : List Char) :
    Nat.toDigitsCore 10 fuel n ds = Nat.toDigitsCore 10 fuel n [] ++ ds := by
  induction fuel generalizing n ds with
  | zero => simp [Nat.toDigitsCore]
  | succ fuel ih =>
    simp only [Nat.toDigitsCore]
    by_cases h : n / 10 = 0
    · simp [h]
    · rw [if_neg h, if_neg h, ih (n / 10) (Nat.digitChar (n % 10) :: ds),
        ih (n / 10) [Nat.digitChar (n % 10)]]
      simp

theorem toDigitsCore_all_digits (fuel n : Nat) :
    ∀ c ∈ Nat.toDigitsCore 10 fuel n [], c.isDigit = true := by
  induction fuel generalizing n with
  | zero => simp [Nat.toDigitsCore]
  | succ fuel ih =>
    intro c hc
    simp only [Nat.toDigitsCore] at hc
    have hd : (Nat.digitChar (n % 10)).isDigit = true :=
      digitChar_isDigit _ (Nat.mod_lt _ (by decide))
    by_cases h : n / 10 = 0
    · rw [if_pos h] at hc
      rw [List.mem_singleton] at hc
      rw [hc]
      exact hd
    · rw [if_neg h, toDigitsCore_acc, List.mem_append, List.mem_singleton] at hc
      rcases hc with hc | hc
      · exact ih (n / 10) c hc
      · rw [hc]
        exact hd

theorem toDigitsCore_value (fuel n : Nat) (h : n < fuel) :
    digits_value (Nat.toDigitsCore 10 fuel n []) = n := by
  induction fuel generalizing n with
  | zero => omega
  | succ fuel ih =>
    simp only [Nat.toDigitsCore]
    have hv : (Nat.digitChar (n % 10)).toNat - '0'.toNat = n % 10 :=
      digitChar_value _ (Nat.mod_lt _ (by decide))
    by_cases h0 : n / 10 = 0
    · rw [if_pos h0]
      have : digits_value [Nat.digitChar (n % 10)] =
          10 * digits_value [] + ((Nat.digitChar (n % 10)).toNat - '0'.toNat) :=
        digits_value_snoc [] _
      rw [this, hv]
      simp only [digits_value, List.foldl_nil]
      omega
    · rw [if_neg h0, toDigitsCore_acc, digits_value_snoc, hv, ih (n / 10) (by omega)]
      omega

theorem toDigits_all_digits (n : Nat) : ∀ c ∈ Nat.toDigits 10 n, c.isDigit = true :=
  toDigitsCore_all_digits (n + 1) n

theorem toDigits_value (n : Nat) : digits_value (Nat.toDigits 10 n) = n :=
  toDigitsCore_value (n + 1) n (Nat.lt_succ_self n)

theorem toDigits_ne_nil (n : Nat) : Nat.toDigits 10 n ≠ [] := by
  unfold Nat.toDigits
  simp only [Nat.toDigitsCore]
  by_cases h : n / 10 = 0
  · rw [if_pos h]
    exact List.cons_ne_nil _ _
  · rw [if_neg h, toDigitsCore_acc]
    simp

theorem toDigits_no_dot (n : Nat) : '.' ∉ Nat.toDigits 10 n := by
  intro h
  have := toDigits_all_digits n '.' h
  exact absurd this (by decide)

theorem toDigits_no_dash (n : Nat) : ∀ c ∈ Nat.toDigits 10 n, (c != '-') = true := by
  intro c hc
  have hd := toDigits_all_digits n c hc
  by_contra hne
  have hc' : c = '-' := by simpa using hne
  rw [hc'] at hd
  exact absurd hd (by decide)

theorem is_numeric_toDigits (n : Nat) : is_numeric (Nat.toDigits 10 n) = true := by
  unfold is_numeric
  have h1 : (Nat.toDigits 10 n).isEmpty = false := by
    cases h : Nat.toDigits 10 n with
    | nil => exact absurd h (toDigits_ne_nil n)
    | cons c cs => rfl
  have h2 : (Nat.toDigits 10 n).all Char.isDigit = true :=
    List.all_eq_true.mpr (toDigits_all_digits n)
  rw [h1, h2]
  rfl

theorem component_value_toDigits (n : Nat) :
    component_value (Nat.toDigits 10 n) = n % UINT_RANGE := by
  unfold component_value
  rw [if_pos (is_numeric_toDigits n), toDigits_value]

theorem component_value_lt (piece : List Char) : component_value piece < UINT_RANGE := by
  unfold component_value
  by_cases h : is_numeric piece = true
  · rw [if_pos h]
    exact Nat.mod_lt _ (by decide)
  · rw [if_neg h]
    decide

theorem strip_qualifier_format_version (v : Nat × Nat × Nat) :
    strip_qualifier (format_version v) = format_version v := by
  unfold strip_qualifier
  rw [List.takeWhile_eq_self_iff]
  intro c hc
  simp only [format_version, List.mem_append, List.mem_cons] at hc
  rcases hc with hc | hc | hc | hc | hc
  · exact toDigits_no_dash _ c hc
  · rw [hc]
    decide
  · exact toDigits_no_dash _ c hc
  · rw [hc]
    decide
  · exact toDigits_no_dash _ c hc

theorem splitOn_format_version (v : Nat × Nat × Nat) :
    (format_version v).splitOn '.' =
      [Nat.toDigits 10 v.1, Nat.toDigits 10 v.2.1, Nat.toDigits 10 v.2.2] := by
  have h : format_version v = ['.'].intercalate
      [Nat.toDigits 10 v.1, Nat.toDigits 10 v.2.1, Nat.toDigits 10 v.2.2] := by
    simp [format_version, List.intercalate]
  rw [h]
  apply List.splitOn_intercalate
  · intro l hl
    simp only [List.mem_cons, List.mem_singleton, List.not_mem_nil, or_false] at hl
    rcases hl with hl | hl | hl <;> rw [hl] <;> exact toDigits_no_dot _
  · simp

theorem version_pieces_format_version (v : Nat × Nat × Nat) :
    version_pieces (format_version v) =
      [Nat.toDigits 10 v.1, Nat.toDigits 10 v.2.1, Nat.toDigits 10 v.2.2] := by
  unfold version_pieces
  rw [strip_qualifier_format_version, splitOn_format_version]

theorem parse_format_version (v : Nat × Nat × Nat) :
    WSREPState.parse_version (format_version v) =
      (v.1 % UINT_RANGE, v.2.1 % UINT_RANGE, v.2.2 % UINT_RANGE) := by
  unfold WSREPState.parse_version
  simp only [version_pieces_format_version]
  simp [component_value_toDigits]

theorem parse_normalize_version (str : List Char) :
    WSREPState.parse_version (normalize_version str) = WSREPState.parse_version str := by
  unfold normalize_version
  rw [parse_format_version]
  simp only [WSREPState.parse_version, Nat.mod_eq_of_lt (component_value_lt _)]

theorem normalize_version_idem (str : List Char) :
    normalize_version (normalize_version str) = normalize_version str := by
  have h := parse_normalize_version str
  unfold normalize_version at h ⊢
  rw [h]

theorem well_formed_format_version (v : Nat × Nat × Nat) :
    well_formed_version (format_version v) = true := by
  unfold well_formed_version
  rw [version_pieces_format_version]
  simp [is_numeric_toDigits]

/-- C2: whatever the stored version string, after `clear()` the stored
`wsrep_schema_version` is the empty string, and `clear()` is idempotent. -/
theorem clear_empties_and_is_idempotent (self : WSREPState) :
    self.clear.wsrep_schema_version = [] ∧ self.clear.clear = self.clear :=
  ⟨rfl, rfl⟩

/-- C3: when the write completes, `save_to(dir, f)` succeeds and leaves in the file the
three-component form of the stored string; `load_from(dir, f)` on any object then
succeeds and leaves that object's stored string equal to this form.  The form is
exactly the three components `major`, `minor`, `revision` of the string in decimal,
separated by `.`; it stands for the same version; normalizing it again changes
nothing; `8.0.15` reloads as `8.0.15`, `8.0` as `8.0.0` and `8.0.15-5` as `8.0.15`. -/
theorem save_then_load_normalizes (self other : WSREPState)
    (dir f : List Char) (fs : version_files)
    (hwrite : fs.writable dir f = true) :
    (self.save_to dir f fs).1 = true ∧
      (self.save_to dir f fs).2.2.content dir f =
        some (normalize_version self.wsrep_schema_version) ∧
      other.load_from dir f (self.save_to dir f fs).2.2 =
        (true, { wsrep_schema_version := normalize_version self.wsrep_schema_version }) ∧
      (normalize_version self.wsrep_schema_version).splitOn '.' =
        [Nat.toDigits 10 (WSREPState.parse_version self.wsrep_schema_version).1,
         Nat.toDigits 10 (WSREPState.parse_version self.wsrep_schema_version).2.1,
         Nat.toDigits 10 (WSREPState.parse_version self.wsrep_schema_version).2.2] ∧
      WSREPState.parse_version (normalize_version self.wsrep_schema_version) =
        WSREPState.parse_version self.wsrep_schema_version ∧
      normalize_version (normalize_version self.wsrep_schema_version) =
        normalize_version self.wsrep_schema_version ∧
      normalize_version "8.0.15".toList = "8.0.15".toList ∧
      normalize_version "8.0".toList = "8.0.0".toList ∧
      normalize_version "8.0.15-5".toList = "8.0.15".toList := by
  have hwf : well_formed_version (normalize_version self.wsrep_schema_version) = true :=
    well_formed_format_version _
  refine ⟨?_, ?_, ?_, splitOn_format_version _, parse_normalize_version _,
    normalize_version_idem _, by decide, by decide, by decide⟩
  · simp [WSREPState.save_to, hwrite]
  · simp [WSREPState.save_to, hwrite]
  · simp [WSREPState.save_to, WSREPState.load_from, hwrite, hwf, normalize_version_idem]

/-- Witness for C3: the stored string `8.0.15-5` is saved to the file `wsrep_state` of
the directory `data`, which does not exist yet, and reloaded into an object that
stored `5.7.1`: that object then stores `8.0.15`. -/
theorem save_then_load_normalizes_witness :
    WSREPState.load_from { wsrep_schema_version := "5.7.1".toList }
        "data".toList "wsrep_state".toList
        (WSREPState.save_to { wsrep_schema_version := "8.0.15-5".toList }
          "data".toList "wsrep_state".toList
          { content := fun _ _ => none, writable := fun _ _ => true }).2.2 =
      (true, { wsrep_schema_version := "8.0.15".toList }) :=
  (save_then_load_normalizes { wsrep_schema_version := "8.0.15-5".toList }
    { wsrep_schema_version := "5.7.1".toList } "data".toList "wsrep_state".toList
    { content := fun _ _ => none, writable := fun _ _ => true } rfl).2.2.1

/-- C4: `wsrep_schema_version_equals(server_version)` is true exactly when the triple
parsed from `server_version` equals, component by component, the triple parsed from
the stored version; stored `8.0.15` against `8.0.15` is true, against `8.0.16` is
false, and stored `8.0` against `8.0.0` is true. -/
theorem schema_version_equals_iff_components (self : WSREPState)
    (server_version : List Char) :
    (self.wsrep_schema_version_equals server_version = true ↔
        (WSREPState.parse_version server_version).1 =
            (WSREPState.parse_version self.wsrep_schema_version).1 ∧
          (WSREPState.parse_version server_version).2.1 =
            (WSREPState.parse_version self.wsrep_schema_version).2.1 ∧
          (WSREPState.parse_version server_version).2.2 =
            (WSREPState.parse_version self.wsrep_schema_version).2.2) ∧
      WSREPState.wsrep_schema_version_equals
        { wsrep_schema_version := "8.0.15".toList } "8.0.15".toList = true ∧
      WSREPState.wsrep_schema_version_equals
        { wsrep_schema_version := "8.0.15".toList } "8.0.16".toList = false ∧
      WSREPState.wsrep_schema_version_equals
        { wsrep_schema_version := "8.0".toList } "8.0.0".toList = true := by
  refine ⟨?_, by decide, by decide, by decide⟩
  simp only [WSREPState.wsrep_schema_version_equals, Bool.and_eq_true, beq_iff_eq]
  constructor
  · rintro ⟨⟨h1, h2⟩, h3⟩
    exact ⟨h1.symm, h2.symm, h3.symm⟩
  · rintro ⟨h1, h2, h3⟩
    exact ⟨⟨h1.symm, h2.symm⟩, h3.symm⟩

end wsp
